import Mathlib

/-!
Verification of the missing-value analysis and imputation engine specified
for the `python-data-analytics` repository (Part 05, "Introduction to
Missing Data").  The repository's notebook only invokes a third-party
library (`isna`, `dropna`, `fillna`, `ffill`, `bfill`); the engine itself
is specified but not implemented under `src/`, so every definition below is
modelled from the specification's words.
-/

namespace MissingData

/-- Modelled from the spec: the declared semantic types of a column
(integer, float, boolean, string, temporal). -/
inductive ColType where
  | intT
  | floatT
  | boolT
  | stringT
  | temporalT
deriving DecidableEq, Repr

/-- Modelled from the spec: raw payload values a cell can hold.  Float
payloads are modelled by rationals (the NaN sentinel is classified to
`Missing` and never stored as a payload); temporal values by a tick
count. -/
inductive Value where
  | intV : Int → Value
  | floatV : ℚ → Value
  | boolV : Bool → Value
  | strV : String → Value
  | tempV : Int → Value
deriving DecidableEq, Repr

/-- Modelled from the spec: a cell is a tagged value, `Present v` or
`Missing`; `Missing` carries no payload. -/
inductive Cell where
  | Present : Value → Cell
  | Missing : Cell
deriving DecidableEq, Repr

/-- Modelled from the spec: a named column with a declared semantic type,
holding an ordered sequence of cells. -/
structure Column where
  name : String
  ctype : ColType
  cells : List Cell
deriving DecidableEq, Repr

/-- Modelled from the spec: a table is an ordered sequence of named
columns. -/
structure Table where
  cols : List Column
deriving DecidableEq, Repr

/-- `mask[r][c] = true` iff the cell is `Missing`. -/
def isMissing : Cell → Bool
  | .Missing => true
  | .Present _ => false

/-- Number of columns of the table. -/
def colCount (t : Table) : Nat := t.cols.length

/-- Number of rows of the table (the common length of its columns; `0`
when the table has no columns). -/
def rowCount (t : Table) : Nat :=
  match t.cols with
  | [] => 0
  | c :: _ => c.cells.length

/-- The spec's data-model invariant: all columns have equal length. -/
def wf (t : Table) : Bool :=
  t.cols.all (fun c => c.cells.length == rowCount t)

/-- Cell lookup by column index and row index; `none` when out of range. -/
def cellAt (t : Table) (ci ri : Nat) : Option Cell :=
  (t.cols.get? ci).bind (fun c => c.cells.get? ri)

/-- Modelled from the spec: the constant-fill strategy replaces a
`Missing` cell by `Present v` and keeps a present cell unchanged. -/
def fillCell (v : Value) : Cell → Cell
  | .Present x => .Present x
  | .Missing => .Present v

/-- Modelled from the spec: `fillna(table, constant = v)` fills every
missing cell of every column with `v`, returning a new table. -/
def fillnaConst (v : Value) (t : Table) : Table :=
  ⟨t.cols.map (fun c => { c with cells := c.cells.map (fillCell v) })⟩

theorem fillCell_ne_missing (v : Value) (c : Cell) : fillCell v c ≠ Cell.Missing := by
  cases c <;> simp [fillCell]

/-- C1: filling with the constant strategy produces a table in which no
cell is `Missing`: positionally, every cell of the result is the original
present cell, or `Present v` where the original was missing (this is what
`fillCell` states), and no cell of any column of the result is
`Missing`. -/
theorem fillnaConst_complete (t : Table) (v : Value) :
    (∀ ci ri, cellAt (fillnaConst v t) ci ri = (cellAt t ci ri).map (fillCell v)) ∧
    (∀ c, c ∈ (fillnaConst v t).cols → ∀ x ∈ c.cells, x ≠ Cell.Missing) := by
  constructor
  · intro ci ri
    simp only [cellAt, fillnaConst, List.get?_eq_getElem?, List.getElem?_map]
    cases hc : t.cols[ci]? with
    | none => rfl
    | some c =>
      simp only [Option.map_some', Option.some_bind, List.getElem?_map]
  · intro c hc x hx
    simp only [fillnaConst, List.mem_map] at hc
    obtain ⟨c0, _, rfl⟩ := hc
    simp only [List.mem_map] at hx
    obtain ⟨x0, _, rfl⟩ := hx
    exact fillCell_ne_missing v x0

/-- Witness for C1 at a concrete one-column table containing a missing
cell. -/
theorem fillnaConst_complete_witness :
    ∀ c, c ∈ (fillnaConst (Value.intV 7)
        ⟨[⟨"a", ColType.intT, [Cell.Present (Value.intV 1), Cell.Missing]⟩]⟩).cols →
      ∀ x ∈ c.cells, x ≠ Cell.Missing :=
  (fillnaConst_complete
    ⟨[⟨"a", ColType.intT, [Cell.Present (Value.intV 1), Cell.Missing]⟩]⟩
    (Value.intV 7)).2

/-- The cells of row `r`, one per column (`Missing` when out of range;
every row index below `rowCount` is in range for a well-formed table). -/
def rowCells (t : Table) (r : Nat) : List Cell :=
  t.cols.map (fun c => c.cells.getD r Cell.Missing)

/-- Number of missing cells in row `r` (`sum(mask[r])`). -/
def rowMissingCount (t : Table) (r : Nat) : Nat :=
  ((rowCells t r).filter isMissing).length

/-- Modelled from the spec: `nonMissingCount(r) = columnCount - sum(mask[r])`. -/
def rowNonMissingCount (t : Table) (r : Nat) : Nat :=
  colCount t - rowMissingCount t r

/-- Modelled from the spec: `rowAnyMissing(r) = OR over c of mask[r][c]`. -/
def rowAnyMissing (t : Table) (r : Nat) : Bool :=
  (rowCells t r).any isMissing

/-- Modelled from the spec: `rowAllMissing(r) = AND over c of mask[r][c]`. -/
def rowAllMissing (t : Table) (r : Nat) : Bool :=
  (rowCells t r).all isMissing

/-- The `how` parameter of `dropna`. -/
inductive How where
  | any
  | all
deriving DecidableEq, Repr

/-- Modelled from the spec: `how = any` drops a row if at least one cell is
missing; `how = all` drops it only if every cell is missing. -/
def keepRowHow (t : Table) (h : How) (r : Nat) : Bool :=
  match h with
  | .any => !rowAnyMissing t r
  | .all => !rowAllMissing t r

/-- Modelled from the spec: `keepRow(r, thresh) = nonMissingCount(r) >= thresh`. -/
def keepRowThresh (t : Table) (k : Nat) (r : Nat) : Bool :=
  decide (k ≤ rowNonMissingCount t r)

/-- Indices of the rows kept by a row predicate, in original order. -/
def keptRows (t : Table) (keep : Nat → Bool) : List Nat :=
  (List.range (rowCount t)).filter keep

/-- Restriction of a table to the rows listed in `keep`. -/
def selectRows (t : Table) (keep : List Nat) : Table :=
  ⟨t.cols.map (fun c => { c with cells := keep.map (fun r => c.cells.getD r Cell.Missing) })⟩

/-- Modelled from the spec: `dropna(table, axis=rows, how)`. -/
def dropnaRowsHow (t : Table) (h : How) : Table :=
  selectRows t (keptRows t (keepRowHow t h))

/-- Modelled from the spec: `dropna(table, axis=rows, thresh=k)`. -/
def dropnaRowsThresh (t : Table) (k : Nat) : Table :=
  selectRows t (keptRows t (keepRowThresh t k))

/-- Number of missing cells in a column (`sum` of the column's mask). -/
def colMissingCount (c : Column) : Nat :=
  (c.cells.filter isMissing).length

/-- Modelled from the spec: per-column non-missing count,
`rowCount - sum(mask[:,c])`. -/
def colNonMissingCount (t : Table) (c : Column) : Nat :=
  rowCount t - colMissingCount c

/-- Column `any`/`all` drop predicate, symmetric to the row one. -/
def keepColHow (h : How) (c : Column) : Bool :=
  match h with
  | .any => !c.cells.any isMissing
  | .all => !c.cells.all isMissing

/-- Modelled from the spec: `dropna(table, axis=columns, how)`. -/
def dropnaColsHow (t : Table) (h : How) : Table :=
  ⟨t.cols.filter (keepColHow h)⟩

/-- Modelled from the spec: `dropna(table, axis=columns, thresh=k)`. -/
def dropnaColsThresh (t : Table) (k : Nat) : Table :=
  ⟨t.cols.filter (fun c => decide (k ≤ colNonMissingCount t c))⟩

theorem rowCells_length (t : Table) (r : Nat) : (rowCells t r).length = colCount t := by
  simp [rowCells, colCount]

theorem count_zero_iff_not_any (l : List Cell) :
    (l.filter isMissing).length = 0 ↔ l.any isMissing = false := by
  rw [List.length_eq_zero, List.filter_eq_nil_iff, List.any_eq_false]

theorem count_eq_length_iff_all (l : List Cell) :
    (l.filter isMissing).length = l.length ↔ l.all isMissing = true := by
  constructor
  · intro h
    exact List.all_eq_true.mpr (List.filter_eq_self.mp
      ((List.filter_sublist l).eq_of_length h))
  · intro h
    rw [List.filter_eq_self.mpr (List.all_eq_true.mp h)]

theorem keepRowThresh_colCount (t : Table) (r : Nat) :
    keepRowThresh t (colCount t) r = keepRowHow t How.any r := by
  have hle : ((rowCells t r).filter isMissing).length ≤ colCount t := by
    rw [← rowCells_length t r]
    exact List.length_filter_le _ _
  unfold keepRowThresh keepRowHow rowNonMissingCount rowMissingCount rowAnyMissing
  cases hA : (rowCells t r).any isMissing with
  | false =>
    have h0 := (count_zero_iff_not_any (rowCells t r)).mpr hA
    simp [h0]
  | true =>
    have h0 : ((rowCells t r).filter isMissing).length ≠ 0 := by
      intro h
      rw [(count_zero_iff_not_any (rowCells t r)).mp h] at hA
      exact Bool.false_ne_true hA
    simp only [Bool.not_true, decide_eq_false_iff_not]
    omega

theorem keepRowThresh_one (t : Table) (r : Nat) :
    keepRowThresh t 1 r = keepRowHow t How.all r := by
  have hle : ((rowCells t r).filter isMissing).length ≤ colCount t := by
    rw [← rowCells_length t r]
    exact List.length_filter_le _ _
  unfold keepRowThresh keepRowHow rowNonMissingCount rowMissingCount rowAllMissing
  cases hA : (rowCells t r).all isMissing with
  | false =>
    have hne : ((rowCells t r).filter isMissing).length ≠ (rowCells t r).length := by
      intro h
      rw [(count_eq_length_iff_all (rowCells t r)).mp h] at hA
      exact Bool.false_ne_true hA.symm
    rw [rowCells_length] at hne
    simp only [Bool.not_false, decide_eq_true_eq]
    omega
  | true =>
    have heq := (count_eq_length_iff_all (rowCells t r)).mpr hA
    rw [rowCells_length] at heq
    simp only [Bool.not_true, decide_eq_false_iff_not, heq]
    omega

theorem wf_col_length (t : Table) (hwf : wf t = true) :
    ∀ c ∈ t.cols, c.cells.length = rowCount t := by
  intro c hc
  have := List.all_eq_true.mp hwf c hc
  simpa using this

theorem keepColThresh_rowCount (t : Table) (hwf : wf t = true) :
    ∀ c ∈ t.cols,
      decide (rowCount t ≤ colNonMissingCount t c) = keepColHow How.any c := by
  intro c hc
  have hlen := wf_col_length t hwf c hc
  have hle : (c.cells.filter isMissing).length ≤ rowCount t := by
    rw [← hlen]
    exact List.length_filter_le _ _
  unfold colNonMissingCount colMissingCount keepColHow
  cases hA : c.cells.any isMissing with
  | false =>
    have h0 := (count_zero_iff_not_any c.cells).mpr hA
    simp [h0]
  | true =>
    have h0 : (c.cells.filter isMissing).length ≠ 0 := by
      intro h
      rw [(count_zero_iff_not_any c.cells).mp h] at hA
      exact Bool.false_ne_true hA
    simp only [Bool.not_true, decide_eq_false_iff_not]
    omega

theorem keepColThresh_one (t : Table) (hwf : wf t = true) :
    ∀ c ∈ t.cols,
      decide (1 ≤ colNonMissingCount t c) = keepColHow How.all c := by
  intro c hc
  have hlen := wf_col_length t hwf c hc
  have hle : (c.cells.filter isMissing).length ≤ rowCount t := by
    rw [← hlen]
    exact List.length_filter_le _ _
  unfold colNonMissingCount colMissingCount keepColHow
  cases hA : c.cells.all isMissing with
  | false =>
    have hne : (c.cells.filter isMissing).length ≠ c.cells.length := by
      intro h
      rw [(count_eq_length_iff_all c.cells).mp h] at hA
      exact Bool.false_ne_true hA.symm
    rw [hlen] at hne
    simp only [Bool.not_false, decide_eq_true_eq]
    omega
  | true =>
    have heq := (count_eq_length_iff_all c.cells).mpr hA
    rw [hlen] at heq
    simp only [Bool.not_true, decide_eq_false_iff_not, heq]
    omega

/-- C2: for a well-formed table, `dropna` with `thresh = columnCount` is
identical to `how = any`, and `thresh = 1` is identical to `how = all`,
on the row axis; symmetrically on the column axis with `thresh = rowCount`
and `thresh = 1`. -/
theorem dropna_thresh_generalizes_how (t : Table) (hwf : wf t = true) :
    dropnaRowsThresh t (colCount t) = dropnaRowsHow t How.any ∧
    dropnaRowsThresh t 1 = dropnaRowsHow t How.all ∧
    dropnaColsThresh t (rowCount t) = dropnaColsHow t How.any ∧
    dropnaColsThresh t 1 = dropnaColsHow t How.all := by
  refine ⟨?_, ?_, ?_, ?_⟩
  · unfold dropnaRowsThresh dropnaRowsHow keptRows
    rw [List.filter_congr (fun r _ => keepRowThresh_colCount t r)]
  · unfold dropnaRowsThresh dropnaRowsHow keptRows
    rw [List.filter_congr (fun r _ => keepRowThresh_one t r)]
  · unfold dropnaColsThresh dropnaColsHow
    rw [List.filter_congr (keepColThresh_rowCount t hwf)]
  · unfold dropnaColsThresh dropnaColsHow
    rw [List.filter_congr (keepColThresh_one t hwf)]

/-- Witness for C2 at a concrete 2x2 well-formed table. -/
theorem dropna_thresh_generalizes_how_witness :
    dropnaRowsThresh
        ⟨[⟨"a", ColType.intT, [Cell.Present (Value.intV 1), Cell.Missing]⟩,
          ⟨"b", ColType.intT, [Cell.Missing, Cell.Missing]⟩]⟩ 2 =
      dropnaRowsHow
        ⟨[⟨"a", ColType.intT, [Cell.Present (Value.intV 1), Cell.Missing]⟩,
          ⟨"b", ColType.intT, [Cell.Missing, Cell.Missing]⟩]⟩ How.any :=
  (dropna_thresh_generalizes_how
    ⟨[⟨"a", ColType.intT, [Cell.Present (Value.intV 1), Cell.Missing]⟩,
      ⟨"b", ColType.intT, [Cell.Missing, Cell.Missing]⟩]⟩ (by decide)).1

/-- C4: a row that survives `dropna(axis=rows, how=any)` also survives
`dropna(axis=rows, how=all)`: membership in the kept-row index list with
`how=any` implies membership with `how=all`. -/
theorem dropna_any_survivor_survives_all (t : Table) (r : Nat)
    (h : r ∈ keptRows t (keepRowHow t How.any)) :
    r ∈ keptRows t (keepRowHow t How.all) := by
  rw [keptRows, List.mem_filter] at h ⊢
  obtain ⟨hr, hkeep⟩ := h
  refine ⟨hr, ?_⟩
  have hpos : 0 < rowCount t := by
    have := List.mem_range.mp hr
    omega
  have hcols : t.cols ≠ [] := by
    intro hnil
    rw [rowCount, hnil] at hpos
    exact Nat.lt_irrefl 0 hpos
  have hne : rowCells t r ≠ [] := by
    intro hnil
    have := rowCells_length t r
    rw [hnil] at this
    rw [colCount] at this
    exact hcols (List.length_eq_zero.mp this.symm)
  unfold keepRowHow rowAnyMissing at hkeep
  unfold keepRowHow rowAllMissing
  obtain ⟨x, hx⟩ := List.exists_mem_of_ne_nil _ hne
  have hxf : isMissing x = false := by
    have := List.any_eq_false.mp (Bool.not_eq_true' .. ▸ hkeep) x hx
    simpa using this
  cases hA : (rowCells t r).all isMissing with
  | false => rfl
  | true =>
    have := List.all_eq_true.mp hA x hx
    rw [hxf] at this
    exact absurd this Bool.false_ne_true

/-- Witness for C4: row 1 of the notebook's example survives `how=any` and
hence `how=all`. -/
theorem dropna_any_survivor_survives_all_witness :
    1 ∈ keptRows
      ⟨[⟨"0", ColType.floatT, [Cell.Present (Value.floatV 1), Cell.Present (Value.floatV 2), Cell.Missing]⟩,
        ⟨"1", ColType.floatT, [Cell.Missing, Cell.Present (Value.floatV 3), Cell.Present (Value.floatV 4)]⟩,
        ⟨"2", ColType.floatT, [Cell.Present (Value.floatV 2), Cell.Present (Value.floatV 5), Cell.Present (Value.floatV 6)]⟩]⟩
      (keepRowHow
        ⟨[⟨"0", ColType.floatT, [Cell.Present (Value.floatV 1), Cell.Present (Value.floatV 2), Cell.Missing]⟩,
          ⟨"1", ColType.floatT, [Cell.Missing, Cell.Present (Value.floatV 3), Cell.Present (Value.floatV 4)]⟩,
          ⟨"2", ColType.floatT, [Cell.Present (Value.floatV 2), Cell.Present (Value.floatV 5), Cell.Present (Value.floatV 6)]⟩]⟩
        How.all) :=
  dropna_any_survivor_survives_all _ 1 (by decide)

/-- The notebook's example table, rows `[[1,NaN,2],[2,3,5],[NaN,4,6]]`
stored column-wise (the NaN cells are `Missing`). -/
def exampleTable : Table :=
  ⟨[⟨"0", ColType.floatT, [Cell.Present (Value.floatV 1), Cell.Present (Value.floatV 2), Cell.Missing]⟩,
    ⟨"1", ColType.floatT, [Cell.Missing, Cell.Present (Value.floatV 3), Cell.Present (Value.floatV 4)]⟩,
    ⟨"2", ColType.floatT, [Cell.Present (Value.floatV 2), Cell.Present (Value.floatV 5), Cell.Present (Value.floatV 6)]⟩]⟩

/-- C9: on the example table, `dropna(axis=rows, how=any)` returns exactly
the one-row table `[[2,3,5]]`. -/
theorem dropna_example_single_row :
    dropnaRowsHow exampleTable How.any =
      ⟨[⟨"0", ColType.floatT, [Cell.Present (Value.floatV 2)]⟩,
        ⟨"1", ColType.floatT, [Cell.Present (Value.floatV 3)]⟩,
        ⟨"2", ColType.floatT, [Cell.Present (Value.floatV 5)]⟩]⟩ := by
  decide

/-- Modelled from the spec: `columnMissingCounts(table)`, the mapping
column → number of missing cells. -/
def columnMissingCounts (t : Table) : List (String × Nat) :=
  t.cols.map (fun c => (c.name, colMissingCount c))

/-- Modelled from the spec: `columnMissingRatio(table)`, the mapping
column → `columnMissingCounts[c] / rowCount`, defined as `0` when
`rowCount = 0` by an explicit guard. -/
def columnMissingRatio (t : Table) : List (String × ℚ) :=
  if rowCount t = 0 then
    t.cols.map (fun c => (c.name, 0))
  else
    t.cols.map (fun c => (c.name, (colMissingCount c : ℚ) / (rowCount t : ℚ)))

/-- C3: for every column of a well-formed table, the missing ratio equals
the missing count divided by the row count (with the zero-row guard
giving 0), and lies in `[0, 1]`. -/
theorem getD_map_of_lt {α β : Type} (f : α → β) (l : List α) (i : Nat) (d : β)
    (h : i < l.length) : (l.map f).getD i d = f (l.get ⟨i, h⟩) := by
  rw [List.getD_eq_getElem?_getD, List.getElem?_map, List.getElem?_eq_getElem h,
    Option.map_some', Option.getD_some, List.get_eq_getElem]

theorem columnMissingRatio_spec (t : Table) (hwf : wf t = true)
    (i : Nat) (hi : i < colCount t) :
    ((columnMissingRatio t).getD i ("", 0)).2 =
      (if rowCount t = 0 then 0
       else (((columnMissingCounts t).getD i ("", 0)).2 : ℚ) / (rowCount t : ℚ)) ∧
    0 ≤ ((columnMissingRatio t).getD i ("", 0)).2 ∧
    ((columnMissingRatio t).getD i ("", 0)).2 ≤ 1 := by
  rw [colCount] at hi
  have hmem : t.cols.get ⟨i, hi⟩ ∈ t.cols := List.get_mem t.cols _ _
  have hlen := wf_col_length t hwf _ hmem
  have hcnt : colMissingCount (t.cols.get ⟨i, hi⟩) ≤ rowCount t := by
    rw [← hlen]
    exact List.length_filter_le _ _
  by_cases h0 : rowCount t = 0
  · rw [columnMissingRatio, if_pos h0, if_pos h0, getD_map_of_lt _ _ _ _ hi]
    exact ⟨rfl, le_refl 0, zero_le_one⟩
  · have hpos : 0 < (rowCount t : ℚ) := by
      have : 0 < rowCount t := Nat.pos_of_ne_zero h0
      exact_mod_cast this
    rw [columnMissingRatio, columnMissingCounts, if_neg h0, if_neg h0,
      getD_map_of_lt _ _ _ _ hi, getD_map_of_lt _ _ _ _ hi]
    refine ⟨rfl, ?_, ?_⟩
    · exact div_nonneg (by positivity) (le_of_lt hpos)
    · rw [div_le_one hpos]
      exact_mod_cast hcnt

/-- Witness for C3 at a concrete 2x1 table with one missing cell. -/
theorem columnMissingRatio_spec_witness :
    0 ≤ ((columnMissingRatio
        ⟨[⟨"a", ColType.intT, [Cell.Missing, Cell.Present (Value.intV 3)]⟩]⟩).getD
          0 ("", 0)).2 :=
  (columnMissingRatio_spec
    ⟨[⟨"a", ColType.intT, [Cell.Missing, Cell.Present (Value.intV 3)]⟩]⟩
    (by decide) 0 (by decide)).2.1

/-- Modelled from the spec: forward fill with the nearest preceding
non-missing value carried in `prev`; a missing cell with no preceding
value stays `Missing`. -/
def ffillGo : Option Value → List Cell → List Cell
  | _, [] => []
  | _, Cell.Present v :: rest => Cell.Present v :: ffillGo (some v) rest
  | some v, Cell.Missing :: rest => Cell.Present v :: ffillGo (some v) rest
  | none, Cell.Missing :: rest => Cell.Missing :: ffillGo none rest

/-- Modelled from the spec: forward fill of a single column. -/
def ffillList (l : List Cell) : List Cell := ffillGo none l

/-- Modelled from the spec: backward fill of a single column, the mirror
image of forward fill. -/
def bfillList (l : List Cell) : List Cell := (ffillGo none l.reverse).reverse

theorem ffillGo_some_present (v : Value) (l : List Cell) :
    ∀ y ∈ ffillGo (some v) l, isMissing y = false := by
  induction l generalizing v with
  | nil => intro y hy; cases hy
  | cons a rest ih =>
    intro y hy
    cases a with
    | Present w =>
      rw [ffillGo] at hy
      rcases List.mem_cons.mp hy with h | h
      · rw [h]; rfl
      · exact ih w y h
    | Missing =>
      rw [ffillGo] at hy
      rcases List.mem_cons.mp hy with h | h
      · rw [h]; rfl
      · exact ih v y h

theorem ffillGo_head_present (prev : Option Value) (w : Value) (l : List Cell) :
    ∀ y ∈ ffillGo prev (Cell.Present w :: l), isMissing y = false := by
  intro y hy
  cases prev <;>
    · rw [ffillGo] at hy
      rcases List.mem_cons.mp hy with h | h
      · rw [h]; rfl
      · exact ffillGo_some_present w l y h

theorem ffillGo_present_prefix (prev : Option Value) (p q : List Cell)
    (hne : p ≠ []) (hp : ∀ x ∈ p, isMissing x = false) :
    ∀ y ∈ ffillGo prev (p ++ q), isMissing y = false := by
  cases p with
  | nil => exact absurd rfl hne
  | cons a p0 =>
    cases a with
    | Present w => exact ffillGo_head_present prev w (p0 ++ q)
    | Missing =>
      have := hp Cell.Missing (List.mem_cons_self _ _)
      simp [isMissing] at this

theorem ffillGo_all_missing (l : List Cell) (h : l.all isMissing = true) :
    ffillGo none l = l := by
  induction l with
  | nil => rfl
  | cons a rest ih =>
    cases a with
    | Present w =>
      have := List.all_eq_true.mp h (Cell.Present w) (List.mem_cons_self _ _)
      simp [isMissing] at this
    | Missing =>
      rw [ffillGo, ih (by
        rw [List.all_cons] at h
        exact (Bool.and_eq_true_iff.mp h).2)]

/-- The forward-fill state after scanning a list: the last present value
seen, if any. -/
def lastPresent : Option Value → List Cell → Option Value
  | prev, [] => prev
  | _, Cell.Present v :: rest => lastPresent (some v) rest
  | prev, Cell.Missing :: rest => lastPresent prev rest

theorem ffillGo_append (prev : Option Value) (xs ys : List Cell) :
    ffillGo prev (xs ++ ys) = ffillGo prev xs ++ ffillGo (lastPresent prev xs) ys := by
  induction xs generalizing prev with
  | nil => cases prev <;> rfl
  | cons a rest ih =>
    cases a with
    | Present w =>
      cases prev <;>
        simp only [ffillGo, lastPresent, List.cons_append, List.append_eq, ih]
    | Missing =>
      cases prev <;>
        simp only [ffillGo, lastPresent, List.cons_append, List.append_eq, ih]

/-- C5: on a single column, forward fill followed by backward fill leaves
no `Missing` cell — unless every cell of the column was missing, in which
case the column is returned entirely unchanged (all cells still
missing). -/
theorem ffill_bfill_complete (l : List Cell) :
    (l.all isMissing = false → ∀ y ∈ bfillList (ffillList l), isMissing y = false) ∧
    (l.all isMissing = true → bfillList (ffillList l) = l) := by
  constructor
  · intro hall y hy
    obtain ⟨x, hx, hxp⟩ := List.all_eq_false.mp hall
    have hxp' : isMissing x = false := by
      cases hmx : isMissing x
      · rfl
      · exact absurd hmx hxp
    obtain ⟨s, u, rfl⟩ := List.append_of_mem hx
    cases x with
    | Missing => simp [isMissing] at hxp'
    | Present v =>
      rw [ffillList, ffillGo_append] at hy
      have hsplit :
          ffillGo (lastPresent none s) (Cell.Present v :: u) =
            Cell.Present v :: ffillGo (some v) u := by
        cases lastPresent none s <;> rfl
      rw [hsplit] at hy
      rw [bfillList, List.mem_reverse] at hy
      rw [List.reverse_append, List.reverse_cons] at hy
      refine ffillGo_present_prefix none
        ((ffillGo (some v) u).reverse ++ [Cell.Present v])
        (ffillGo none s).reverse (by simp) ?_ y hy
      intro z hz
      rcases List.mem_append.mp hz with h | h
      · exact ffillGo_some_present v u z (List.mem_reverse.mp h)
      · rw [List.mem_singleton.mp h]; rfl
  · intro hall
    rw [ffillList, ffillGo_all_missing l hall, bfillList,
      ffillGo_all_missing l.reverse (by rw [List.all_reverse]; exact hall),
      List.reverse_reverse]

/-- Witness for C5: a column with a leading missing cell and a present
cell is completely filled by forward-then-backward fill. -/
theorem ffill_bfill_complete_witness :
    ∀ y ∈ bfillList (ffillList [Cell.Missing, Cell.Present (Value.intV 4), Cell.Missing]),
      isMissing y = false :=
  (ffill_bfill_complete [Cell.Missing, Cell.Present (Value.intV 4), Cell.Missing]).1
    (by decide)

/-- Modelled from the spec: the per-column fill statistics. -/
inductive Stat where
  | mean
  | median
deriving DecidableEq, Repr

/-- Modelled from the spec: the typed errors of the engine. -/
inductive FillError where
  | ConfigurationError
  | ShapeMismatchError
  | UnsupportedTypeError
deriving DecidableEq, Repr

/-- Modelled from the spec: whether a column's semantic type has a defined
mean/median (free-text strings do not). -/
def statSupported : ColType → Bool
  | .intT => true
  | .floatT => true
  | .boolT => true
  | .stringT => false
  | .temporalT => true

/-- Numeric reading of a payload, used to compute column statistics
(string payloads never reach this point on a supported column). -/
def valueToRat : Value → ℚ
  | .intV n => (n : ℚ)
  | .floatV q => q
  | .boolV b => if b then 1 else 0
  | .strV _ => 0
  | .tempV n => (n : ℚ)

/-- The non-missing payloads of a column, in order. -/
def presentValues (c : Column) : List Value :=
  c.cells.filterMap (fun x => match x with
    | .Present v => some v
    | .Missing => none)

/-- Mean of a list of rationals (`0` for the empty list). -/
def meanQ (l : List ℚ) : ℚ := l.sum / (l.length : ℚ)

def insertSorted (x : ℚ) : List ℚ → List ℚ
  | [] => [x]
  | y :: ys => if x ≤ y then x :: y :: ys else y :: insertSorted x ys

def sortQ : List ℚ → List ℚ
  | [] => []
  | x :: xs => insertSorted x (sortQ xs)

/-- Median of a list of rationals: middle element of the sorted list, or
the average of the two middle elements (`0` for the empty list). -/
def medianQ (l : List ℚ) : ℚ :=
  let s := sortQ l
  if s.length % 2 = 1 then s.getD (s.length / 2) 0
  else (s.getD (s.length / 2 - 1) 0 + s.getD (s.length / 2) 0) / 2

/-- Modelled from the spec: the statistic of a column, computed over its
non-missing values only. -/
def columnStatValue (s : Stat) (c : Column) : ℚ :=
  match s with
  | .mean => meanQ ((presentValues c).map valueToRat)
  | .median => medianQ ((presentValues c).map valueToRat)

/-- Modelled from the spec: statistic fill of one column; fails with
`UnsupportedTypeError` when the column's semantic type has no defined
mean/median. -/
def columnStatFill (s : Stat) (c : Column) : Except FillError Column :=
  if statSupported c.ctype then
    Except.ok { c with cells := c.cells.map (fillCell (Value.floatV (columnStatValue s c))) }
  else
    Except.error FillError.UnsupportedTypeError

/-- Error-propagating sequencing over the columns: the first failing
column aborts the whole traversal. -/
def mapExcept (f : Column → Except FillError Column) :
    List Column → Except FillError (List Column)
  | [] => Except.ok []
  | c :: cs =>
    match f c with
    | .error e => Except.error e
    | .ok c2 =>
      match mapExcept f cs with
      | .error e => Except.error e
      | .ok cs2 => Except.ok (c2 :: cs2)

/-- Modelled from the spec: `fillna(table, strategy = statistic)`,
all-or-nothing per call. -/
def fillnaStat (s : Stat) (t : Table) : Except FillError Table :=
  match mapExcept (columnStatFill s) t.cols with
  | .error e => Except.error e
  | .ok cs => Except.ok ⟨cs⟩

theorem mapExcept_statFill_error_iff (s : Stat) (cols : List Column) (e : FillError) :
    mapExcept (columnStatFill s) cols = Except.error e ↔
      e = FillError.UnsupportedTypeError ∧
        ∃ c ∈ cols, statSupported c.ctype = false := by
  induction cols generalizing e with
  | nil => simp [mapExcept]
  | cons c cs ih =>
    rw [mapExcept]
    cases hs : statSupported c.ctype with
    | false =>
      rw [columnStatFill, if_neg (by rw [hs]; exact Bool.false_ne_true)]
      constructor
      · intro h
        cases h
        exact ⟨rfl, c, List.mem_cons_self _ _, hs⟩
      · intro ⟨he, _⟩
        rw [he]
    | true =>
      rw [columnStatFill, if_pos hs]
      cases hrest : mapExcept (columnStatFill s) cs with
      | error e2 =>
        obtain ⟨he2, c2, hc2, hns⟩ := (ih e2).mp hrest
        constructor
        · intro h
          cases h
          exact ⟨he2, c2, List.mem_cons_of_mem _ hc2, hns⟩
        · intro ⟨he, _⟩
          rw [he, ← he2]
      | ok cs2 =>
        constructor
        · intro h
          cases h
        · intro ⟨he, c2, hc2, hns⟩
          rcases List.mem_cons.mp hc2 with h | h
          · rw [h] at hns
            rw [hns] at hs
            exact absurd hs Bool.false_ne_true
          · have := (ih e).mpr ⟨he, c2, h, hns⟩
            rw [this] at hrest
            cases hrest

/-- C7: applying a per-column statistic fill (mean or median) to a table
in which some column's semantic type has no defined mean/median fails the
whole call with `UnsupportedTypeError` (and, the call being all-or-nothing,
no filled table is produced at all); conversely the call fails with that
error only in this situation. -/
theorem fillnaStat_unsupported_all_or_nothing (t : Table) (s : Stat) :
    (fillnaStat s t = Except.error FillError.UnsupportedTypeError ↔
      ∃ c ∈ t.cols, statSupported c.ctype = false) ∧
    (∀ t2, fillnaStat s t = Except.ok t2 →
      ∀ c ∈ t.cols, statSupported c.ctype = true) := by
  constructor
  · rw [fillnaStat]
    cases hm : mapExcept (columnStatFill s) t.cols with
    | error e =>
      obtain ⟨he, hex⟩ := (mapExcept_statFill_error_iff s t.cols e).mp hm
      rw [he]
      simp [hex]
    | ok cs =>
      constructor
      · intro h
        cases h
      · intro hex
        have := (mapExcept_statFill_error_iff s t.cols
          FillError.UnsupportedTypeError).mpr ⟨rfl, hex⟩
        rw [this] at hm
        cases hm
  · intro t2 hok c hc
    cases hs : statSupported c.ctype with
    | true => rfl
    | false =>
      rw [fillnaStat,
        (mapExcept_statFill_error_iff s t.cols FillError.UnsupportedTypeError).mpr
          ⟨rfl, c, hc, hs⟩] at hok
      cases hok

/-- Witness for C7: a table with a string column makes the mean fill fail. -/
theorem fillnaStat_unsupported_all_or_nothing_witness :
    fillnaStat Stat.mean
        ⟨[⟨"a", ColType.intT, [Cell.Present (Value.intV 1), Cell.Missing]⟩,
          ⟨"b", ColType.stringT, [Cell.Missing, Cell.Present (Value.strV "x")]⟩]⟩ =
      Except.error FillError.UnsupportedTypeError :=
  (fillnaStat_unsupported_all_or_nothing
    ⟨[⟨"a", ColType.intT, [Cell.Present (Value.intV 1), Cell.Missing]⟩,
      ⟨"b", ColType.stringT, [Cell.Missing, Cell.Present (Value.strV "x")]⟩]⟩
    Stat.mean).1.mpr
    ⟨⟨"b", ColType.stringT, [Cell.Missing, Cell.Present (Value.strV "x")]⟩,
      by decide, rfl⟩

/-- Modelled from the spec: table-level forward fill along the column
axis, each column processed independently. -/
def tffill (t : Table) : Table :=
  ⟨t.cols.map (fun c => { c with cells := ffillList c.cells })⟩

/-- Modelled from the spec: table-level backward fill along the column
axis, each column processed independently. -/
def tbfill (t : Table) : Table :=
  ⟨t.cols.map (fun c => { c with cells := bfillList c.cells })⟩

/-- Replace the cell at one position of a column (no change out of
range). -/
def setCell : List Cell → Nat → Cell → List Cell
  | [], _, _ => []
  | _ :: rest, 0, x => x :: rest
  | c :: rest, Nat.succ n, x => c :: setCell rest n x

def setMissingCols : List Column → Nat → Nat → List Column
  | [], _, _ => []
  | c :: rest, 0, ri => { c with cells := setCell c.cells ri Cell.Missing } :: rest
  | c :: rest, Nat.succ n, ri => c :: setMissingCols rest n ri

/-- Mark one cell of the table as `Missing`, leaving every declared column
type (and the shape) untouched. -/
def setMissing (t : Table) (ci ri : Nat) : Table :=
  ⟨setMissingCols t.cols ci ri⟩

/-- The declared column typing of a table: each column's name with its
semantic type, in order. -/
def colTypes (t : Table) : List (String × ColType) :=
  t.cols.map (fun c => (c.name, c.ctype))

/-- The shape of a table: the lengths of its columns, in order. -/
def shape (t : Table) : List Nat :=
  t.cols.map (fun c => c.cells.length)

theorem setCell_length (l : List Cell) (i : Nat) (x : Cell) :
    (setCell l i x).length = l.length := by
  induction l generalizing i with
  | nil => rfl
  | cons a rest ih =>
    cases i with
    | zero => rfl
    | succ n => simp [setCell, ih]

theorem ffillGo_length (prev : Option Value) (l : List Cell) :
    (ffillGo prev l).length = l.length := by
  induction l generalizing prev with
  | nil => cases prev <;> rfl
  | cons a rest ih =>
    cases a with
    | Present w => cases prev <;> simp [ffillGo, ih]
    | Missing => cases prev <;> simp [ffillGo, ih]

theorem bfillList_length (l : List Cell) : (bfillList l).length = l.length := by
  rw [bfillList, List.length_reverse, ffillGo_length, List.length_reverse]

theorem setMissingCols_preserves (cols : List Column) (ci ri : Nat) :
    (setMissingCols cols ci ri).map (fun c => (c.name, c.ctype)) =
        cols.map (fun c => (c.name, c.ctype)) ∧
    (setMissingCols cols ci ri).map (fun c => c.cells.length) =
        cols.map (fun c => c.cells.length) := by
  induction cols generalizing ci with
  | nil => exact ⟨rfl, rfl⟩
  | cons c rest ih =>
    cases ci with
    | zero => simp [setMissingCols, setCell_length]
    | succ n =>
      obtain ⟨h1, h2⟩ := ih n
      simp [setMissingCols, h1, h2]

theorem mapExcept_statFill_ok_preserves (s : Stat) (cols cs2 : List Column)
    (h : mapExcept (columnStatFill s) cols = Except.ok cs2) :
    cs2.map (fun c => (c.name, c.ctype)) = cols.map (fun c => (c.name, c.ctype)) ∧
    cs2.map (fun c => c.cells.length) = cols.map (fun c => c.cells.length) := by
  induction cols generalizing cs2 with
  | nil =>
    cases h
    exact ⟨rfl, rfl⟩
  | cons c rest ih =>
    rw [mapExcept] at h
    cases hs : statSupported c.ctype with
    | false =>
      rw [columnStatFill, if_neg (by rw [hs]; exact Bool.false_ne_true)] at h
      cases h
    | true =>
      rw [columnStatFill, if_pos hs] at h
      cases hrest : mapExcept (columnStatFill s) rest with
      | error e =>
        rw [hrest] at h
        cases h
      | ok cs3 =>
        rw [hrest] at h
        cases h
        obtain ⟨h1, h2⟩ := ih cs3 hrest
        simp [h1, h2]

/-- C8: a column's declared semantic type is fixed: marking any cell
`Missing` changes neither the column typing nor the shape of the table,
and each fill operation (constant, statistic when it succeeds, forward
fill, backward fill) returns a table with identical shape and identical
column typing to its input. -/
theorem declared_types_fixed (t : Table) (ci ri : Nat) (v : Value) (s : Stat) :
    colTypes (setMissing t ci ri) = colTypes t ∧
    shape (setMissing t ci ri) = shape t ∧
    colTypes (fillnaConst v t) = colTypes t ∧
    shape (fillnaConst v t) = shape t ∧
    colTypes (tffill t) = colTypes t ∧
    shape (tffill t) = shape t ∧
    colTypes (tbfill t) = colTypes t ∧
    shape (tbfill t) = shape t ∧
    (∀ t2, fillnaStat s t = Except.ok t2 →
      colTypes t2 = colTypes t ∧ shape t2 = shape t) := by
  obtain ⟨hs1, hs2⟩ := setMissingCols_preserves t.cols ci ri
  refine ⟨hs1, hs2, ?_, ?_, ?_, ?_, ?_, ?_, ?_⟩
  · simp [colTypes, fillnaConst]
  · simp [shape, fillnaConst]
  · simp [colTypes, tffill]
  · simp [shape, tffill, ffillList, ffillGo_length]
  · simp [colTypes, tbfill]
  · simp [shape, tbfill, bfillList_length]
  · intro t2 h2
    rw [fillnaStat] at h2
    cases hm : mapExcept (columnStatFill s) t.cols with
    | error e =>
      rw [hm] at h2
      cases h2
    | ok cs2 =>
      rw [hm] at h2
      cases h2
      exact mapExcept_statFill_ok_preserves s t.cols cs2 hm

/-- Witness for C8's conditional part: the statistic fill of an
all-supported concrete table preserves typing and shape. -/
theorem declared_types_fixed_witness :
    colTypes ⟨[⟨"a", ColType.intT,
        [Cell.Present (Value.intV 1), Cell.Present (Value.intV 2)]⟩]⟩ =
      colTypes ⟨[⟨"a", ColType.intT,
        [Cell.Present (Value.intV 1), Cell.Present (Value.intV 2)]⟩]⟩ ∧
    shape ⟨[⟨"a", ColType.intT,
        [Cell.Present (Value.intV 1), Cell.Present (Value.intV 2)]⟩]⟩ =
      shape ⟨[⟨"a", ColType.intT,
        [Cell.Present (Value.intV 1), Cell.Present (Value.intV 2)]⟩]⟩ :=
  (declared_types_fixed
    ⟨[⟨"a", ColType.intT, [Cell.Present (Value.intV 1), Cell.Present (Value.intV 2)]⟩]⟩
    0 0 (Value.intV 0) Stat.mean).2.2.2.2.2.2.2.2
    ⟨[⟨"a", ColType.intT, [Cell.Present (Value.intV 1), Cell.Present (Value.intV 2)]⟩]⟩
    rfl

/-- The rows of a table, in order, as lists of cells. -/
def rowsOf (t : Table) : List (List Cell) :=
  (List.range (rowCount t)).map (rowCells t)

theorem rowCells_selectRows (t : Table) (keep : List Nat) (i : Nat)
    (hi : i < keep.length) :
    rowCells (selectRows t keep) i = rowCells t (keep.get ⟨i, hi⟩) := by
  unfold rowCells selectRows
  rw [List.map_map]
  apply List.map_congr_left
  intro c _
  simp only [Function.comp]
  rw [getD_map_of_lt _ _ _ _ hi]

theorem rowsOf_selectRows (t : Table) (keep : List Nat)
    (hk : t.cols = [] → keep = []) :
    rowsOf (selectRows t keep) = keep.map (rowCells t) := by
  cases hc : t.cols with
  | nil =>
    rw [hk hc]
    rw [rowsOf, rowCount, selectRows, hc]
    rfl
  | cons c0 cs =>
    have hrc : rowCount (selectRows t keep) = keep.length := by
      rw [selectRows, hc, rowCount]
      simp
    rw [rowsOf, hrc]
    apply List.ext_getElem
    · simp
    · intro i h1 h2
      simp only [List.getElem_map, List.getElem_range]
      rw [rowCells_selectRows t keep i (by simpa using h2), List.get_eq_getElem]

/-- Modelled from the spec: the columns scanned by a row-axis `dropna` —
the `subset` columns when a subset of column names is given, all columns
otherwise. -/
def scanColsR (t : Table) (subset : Option (List String)) : List Column :=
  match subset with
  | none => t.cols
  | some names => t.cols.filter (fun c => names.contains c.name)

/-- Modelled from the spec: a row-axis subset is valid when every listed
column name is present in the table (else `ShapeMismatchError`). -/
def subsetNamesOk (t : Table) (subset : Option (List String)) : Bool :=
  match subset with
  | none => true
  | some names => names.all (fun n => t.cols.any (fun c => c.name == n))

/-- The scanned cells of row `r`, one per scanned column. -/
def subRowCells (scan : List Column) (r : Nat) : List Cell :=
  scan.map (fun c => c.cells.getD r Cell.Missing)

/-- Row `how` predicate evaluated over the scanned columns only. -/
def keepRowHowSub (scan : List Column) (h : How) (r : Nat) : Bool :=
  match h with
  | .any => !(subRowCells scan r).any isMissing
  | .all => !(subRowCells scan r).all isMissing

/-- Row `thresh` predicate evaluated over the scanned columns only. -/
def keepRowThreshSub (scan : List Column) (k : Nat) (r : Nat) : Bool :=
  decide (k ≤ scan.length - ((subRowCells scan r).filter isMissing).length)

/-- Modelled from the spec: the full
`dropna(table, axis=rows, how|thresh, subset)`.  The predicate is
evaluated per row over the `subset` columns (default: all columns);
`thresh` overrides `how` when both are given; a subset naming an absent
column, or a threshold outside `[0, scanned column count]`, fails with
`ShapeMismatchError`. -/
def dropnaRows (t : Table) (how : How) (thresh : Option Nat)
    (subset : Option (List String)) : Except FillError Table :=
  if subsetNamesOk t subset then
    match thresh with
    | none =>
      Except.ok (selectRows t
        ((List.range (rowCount t)).filter (keepRowHowSub (scanColsR t subset) how)))
    | some k =>
      if k ≤ (scanColsR t subset).length then
        Except.ok (selectRows t
          ((List.range (rowCount t)).filter (keepRowThreshSub (scanColsR t subset) k)))
      else Except.error FillError.ShapeMismatchError
  else Except.error FillError.ShapeMismatchError

/-- Modelled from the spec: a column-axis subset (row indices, rows being
positional) is valid when every listed row index is in range. -/
def subsetRowsOk (t : Table) (subset : Option (List Nat)) : Bool :=
  match subset with
  | none => true
  | some rs => rs.all (fun r => decide (r < rowCount t))

/-- The scanned cells of a column: the `subset` rows when given, all rows
otherwise. -/
def subColCells (c : Column) (subset : Option (List Nat)) : List Cell :=
  match subset with
  | none => c.cells
  | some rs => rs.map (fun r => c.cells.getD r Cell.Missing)

/-- Number of scanned rows of a column-axis `dropna`. -/
def scanRowLen (t : Table) (subset : Option (List Nat)) : Nat :=
  match subset with
  | none => rowCount t
  | some rs => rs.length

/-- Column `how` predicate evaluated over the scanned rows only. -/
def keepColHowSub (subset : Option (List Nat)) (h : How) (c : Column) : Bool :=
  match h with
  | .any => !(subColCells c subset).any isMissing
  | .all => !(subColCells c subset).all isMissing

/-- Column `thresh` predicate evaluated over the scanned rows only. -/
def keepColThreshSub (t : Table) (subset : Option (List Nat)) (k : Nat)
    (c : Column) : Bool :=
  decide (k ≤ scanRowLen t subset - ((subColCells c subset).filter isMissing).length)

/-- Modelled from the spec: the full
`dropna(table, axis=columns, how|thresh, subset)`, symmetric to the row
axis: predicate per column over the `subset` rows (default: all rows);
`thresh` overrides `how`; an out-of-range subset row or a threshold
outside `[0, scanned row count]` fails with `ShapeMismatchError`. -/
def dropnaCols (t : Table) (how : How) (thresh : Option Nat)
    (subset : Option (List Nat)) : Except FillError Table :=
  if subsetRowsOk t subset then
    match thresh with
    | none => Except.ok ⟨t.cols.filter (keepColHowSub subset how)⟩
    | some k =>
      if k ≤ scanRowLen t subset then
        Except.ok ⟨t.cols.filter (keepColThreshSub t subset k)⟩
      else Except.error FillError.ShapeMismatchError
  else Except.error FillError.ShapeMismatchError

theorem keepRowHowSub_default (t : Table) (h : How) (r : Nat) :
    keepRowHowSub (scanColsR t none) h r = keepRowHow t h r := by
  cases h <;> rfl

theorem keepRowThreshSub_default (t : Table) (k r : Nat) :
    keepRowThreshSub (scanColsR t none) k r = keepRowThresh t k r := rfl

theorem keepColHowSub_default (h : How) (c : Column) :
    keepColHowSub none h c = keepColHow h c := by
  cases h <;> rfl

theorem keepColThreshSub_default (t : Table) (k : Nat) (c : Column) :
    keepColThreshSub t none k c = decide (k ≤ colNonMissingCount t c) := rfl

theorem dropnaRows_default_how (t : Table) (h : How) :
    dropnaRows t h none none = Except.ok (dropnaRowsHow t h) := by
  rw [dropnaRows]
  simp only [subsetNamesOk, if_true]
  rw [dropnaRowsHow, keptRows,
    List.filter_congr (fun r _ => keepRowHowSub_default t h r)]

theorem dropnaRows_default_thresh (t : Table) (k : Nat) (hk : k ≤ colCount t) :
    dropnaRows t How.any (some k) none = Except.ok (dropnaRowsThresh t k) := by
  rw [dropnaRows]
  simp only [subsetNamesOk, if_true]
  rw [if_pos (show k ≤ (scanColsR t none).length from hk), dropnaRowsThresh, keptRows,
    List.filter_congr (fun r _ => keepRowThreshSub_default t k r)]

theorem dropnaCols_default_how (t : Table) (h : How) :
    dropnaCols t h none none = Except.ok (dropnaColsHow t h) := by
  rw [dropnaCols]
  simp only [subsetRowsOk, if_true]
  rw [dropnaColsHow, List.filter_congr (fun c _ => keepColHowSub_default h c)]

theorem dropnaCols_default_thresh (t : Table) (k : Nat) (hk : k ≤ rowCount t) :
    dropnaCols t How.any (some k) none = Except.ok (dropnaColsThresh t k) := by
  rw [dropnaCols]
  simp only [subsetRowsOk, if_true]
  rw [if_pos (show k ≤ scanRowLen t none from hk), dropnaColsThresh,
    List.filter_congr (fun c _ => keepColThreshSub_default t k c)]

/-- C6: for every argument combination of the full `dropna` signature —
either axis, `how` any/all, an optional `thresh` (which overrides `how`),
and an optional `subset` — whenever the call returns a table (the invalid
combinations return `ShapeMismatchError` and no table), the survivors
appear in the result in the same relative order as in the input: the
row-axis result's rows are exactly the input's rows at a strictly
increasing list of kept original indices, and the column-axis result's
columns are a sublist of the input's columns.  The pure embedding makes
the no-mutation and new-table guarantees intrinsic: `t` itself is
untouched. -/
theorem dropna_pure_and_order (t : Table) (how : How) (thresh : Option Nat)
    (csub : Option (List String)) (rsub : Option (List Nat)) :
    (∀ t2, dropnaRows t how thresh csub = Except.ok t2 →
      ∃ keep, keep.Sublist (List.range (rowCount t)) ∧
        List.Pairwise (· < ·) keep ∧
        rowsOf t2 = keep.map (rowCells t)) ∧
    (∀ t2, dropnaCols t how thresh rsub = Except.ok t2 →
      t2.cols.Sublist t.cols) := by
  have hkernel : ∀ p : Nat → Bool,
      ∃ keep, keep.Sublist (List.range (rowCount t)) ∧
        List.Pairwise (· < ·) keep ∧
        rowsOf (selectRows t ((List.range (rowCount t)).filter p)) =
          keep.map (rowCells t) := by
    intro p
    refine ⟨(List.range (rowCount t)).filter p, List.filter_sublist _,
      List.Pairwise.sublist (List.filter_sublist _) (List.pairwise_lt_range _), ?_⟩
    apply rowsOf_selectRows
    intro hnil
    have h0 : rowCount t = 0 := by rw [rowCount, hnil]
    rw [h0]
    rfl
  constructor
  · intro t2 h2
    rw [dropnaRows.eq_def] at h2
    split at h2
    · split at h2
      · cases h2
        exact hkernel _
      · split at h2
        · cases h2
          exact hkernel _
        · cases h2
    · cases h2
  · intro t2 h2
    rw [dropnaCols.eq_def] at h2
    split at h2
    · split at h2
      · cases h2
        exact List.filter_sublist _
      · split at h2
        · cases h2
          exact List.filter_sublist _
        · cases h2
    · cases h2

/-- Witness for C6: a row-axis `dropna` with an explicit column subset and
threshold on the notebook's example table keeps rows 0 and 1, in order. -/
theorem dropna_pure_and_order_witness :
    ∃ keep, keep.Sublist (List.range (rowCount exampleTable)) ∧
      List.Pairwise (· < ·) keep ∧
      rowsOf
        ⟨[⟨"0", ColType.floatT, [Cell.Present (Value.floatV 1), Cell.Present (Value.floatV 2)]⟩,
          ⟨"1", ColType.floatT, [Cell.Missing, Cell.Present (Value.floatV 3)]⟩,
          ⟨"2", ColType.floatT, [Cell.Present (Value.floatV 2), Cell.Present (Value.floatV 5)]⟩]⟩ =
        keep.map (rowCells exampleTable) :=
  (dropna_pure_and_order exampleTable How.any (some 2) (some ["0", "2"]) none).1
    ⟨[⟨"0", ColType.floatT, [Cell.Present (Value.floatV 1), Cell.Present (Value.floatV 2)]⟩,
      ⟨"1", ColType.floatT, [Cell.Missing, Cell.Present (Value.floatV 3)]⟩,
      ⟨"2", ColType.floatT, [Cell.Present (Value.floatV 2), Cell.Present (Value.floatV 5)]⟩]⟩
    rfl

/-- Modelled from the notebook's sentinel demonstration: the scalar values
compared there (`None`, `np.nan`, `pd.NaT`, `pd.NA`, and ordinary
integers). -/
inductive PyVal where
  | pyNone
  | pyNaN
  | pyNaT
  | pyNA
  | pyInt : Int → PyVal
deriving DecidableEq, Repr

/-- Modelled from the notebook's sentinel demonstration: Python `==` on
these values.  `none` models the propagating `pd.NA` comparison result;
`NaN` and `NaT` compare unequal to everything, themselves included;
`None == None` is `True`. -/
def pyEq : PyVal → PyVal → Option Bool
  | .pyNA, _ => none
  | _, .pyNA => none
  | .pyNaN, _ => some false
  | _, .pyNaN => some false
  | .pyNone, .pyNone => some true
  | .pyInt a, .pyInt b => some (decide (a = b))
  | _, _ => some false

/-- Modelled from the notebook's sentinel demonstration: `isna` classifies
every missing sentinel (`None`, `NaN`, `NaT`, `NA`) as missing. -/
def isnaPy : PyVal → Bool
  | .pyNone => true
  | .pyNaN => true
  | .pyNaT => true
  | .pyNA => true
  | .pyInt _ => false

/-- C10: self-equality of the missing sentinels is not reflexive —
`NaN == NaN` and `NaT == NaT` are `False` and `NA == NA` is the missing
value, while `None == None` is `True` — so self-equality neither implies
nor is implied by missingness (NaN is missing yet self-unequal; None is
missing yet self-equal; an ordinary integer is self-equal yet present);
`isna` classifies all four sentinels as missing. -/
theorem sentinel_equality_not_reflexive :
    pyEq PyVal.pyNaN PyVal.pyNaN = some false ∧
    pyEq PyVal.pyNaT PyVal.pyNaT = some false ∧
    pyEq PyVal.pyNA PyVal.pyNA = none ∧
    pyEq PyVal.pyNone PyVal.pyNone = some true ∧
    isnaPy PyVal.pyNone = true ∧
    isnaPy PyVal.pyNaN = true ∧
    isnaPy PyVal.pyNaT = true ∧
    isnaPy PyVal.pyNA = true ∧
    (isnaPy PyVal.pyNaN = true ∧ pyEq PyVal.pyNaN PyVal.pyNaN ≠ some true) ∧
    (isnaPy PyVal.pyNone = true ∧ pyEq PyVal.pyNone PyVal.pyNone = some true) ∧
    (isnaPy (PyVal.pyInt 3) = false ∧ pyEq (PyVal.pyInt 3) (PyVal.pyInt 3) = some true) := by
  decide

end MissingData
